import Mathlib

/-!
Verification development for the merkle accumulator / proof-builder subsystem
of the relayer, plus the chain-identifier registry.

Digests are modelled as natural numbers; the digest oracle is an arbitrary
binary function `hash : Nat → Nat → Nat` passed explicitly, and the zero
digest (`H256::zero()`) is `0`.  The `MerkleTreeBuilder` itself is transcribed
from `rust/main/agents/relayer/src/merkle_tree/builder.rs`; the `Prover` and
`IncrementalMerkle` components it owns are not part of the provided sources
and are modelled from the specification (sections 4.1 and 4.2).  The chain
registry is transcribed from `rust/hyperlane-core/src/chain.rs`.
-/

namespace Hyperlane

/-- Modelled from the spec: the per-level "empty subtree" digests of the
missing accumulator sources (`zeroHash 0` is the zero leaf digest, each
higher level hashes two copies of the level below). -/
def zeroHash (hash : Nat → Nat → Nat) : Nat → Nat
  | 0 => 0
  | i + 1 => hash (zeroHash hash i) (zeroHash hash i)

/-- Modelled from the spec: state of the missing `IncrementalMerkle`
accumulator — a branch array (one digest per level) plus a leaf count. -/
structure IncrementalMerkle where
  branch : List Nat
  count : Nat
  deriving Repr, DecidableEq

/-- Modelled from the spec: the bit-scan loop of the missing
`IncrementalMerkle::ingest` — starting at level 0, if the current bit of the
pre-increment count is 0 the node is stored into the branch slot and the scan
stops, otherwise the node is merged with the stored branch digest and the
scan moves one level up. -/
def ingestGo (hash : Nat → Nat → Nat) (br : List Nat) (node : Nat) (i : Nat) (size : Nat) :
    List Nat :=
  if h : size % 2 = 0 then br.set i node
  else ingestGo hash br (hash (br.getD i 0) node) (i + 1) (size / 2)
termination_by size
decreasing_by
  simp_wf
  omega

/-- Modelled from the spec: the missing `IncrementalMerkle::ingest` updates
the branch array via the bit scan and increments the count. -/
def incrIngest (hash : Nat → Nat → Nat) (s : IncrementalMerkle) (leaf : Nat) :
    IncrementalMerkle :=
  { branch := ingestGo hash s.branch leaf 0 s.count, count := s.count + 1 }

/-- Modelled from the spec: the level fold of the missing
`IncrementalMerkle::root` — at each of the `levels` levels the running node
is combined with the stored branch digest (when the corresponding count bit
is 1) or with the empty-subtree digest of that level (when it is 0). -/
def rootGo (hash : Nat → Nat → Nat) : Nat → List Nat → Nat → Nat → Nat → Nat
  | 0, _, _, node, _ => node
  | levels + 1, br, i, node, size =>
      rootGo hash levels br (i + 1)
        (if size % 2 = 1 then hash (br.getD i 0) node else hash node (zeroHash hash i))
        (size / 2)

/-- Modelled from the spec: the missing `IncrementalMerkle::root`, folding
the branch array over all `depth` levels according to the count's bits. -/
def incrRoot (hash : Nat → Nat → Nat) (depth : Nat) (s : IncrementalMerkle) : Nat :=
  rootGo hash depth s.branch 0 0 s.count

/-- Modelled from the spec: the missing `IncrementalMerkle::count`. -/
def incrCount (s : IncrementalMerkle) : Nat :=
  s.count

/-- Modelled from the spec: the root of the conceptual full binary tree of a
given depth over a leaf sequence, padded on the right with empty leaves.
Used as the root function of the missing full `Prover` tree. -/
def merkleRootAux (hash : Nat → Nat → Nat) : Nat → List Nat → Nat
  | 0, ls => ls.headD 0
  | d + 1, ls =>
      hash (merkleRootAux hash d (ls.take (2 ^ d))) (merkleRootAux hash d (ls.drop (2 ^ d)))

/-- Modelled from the spec: the missing full `Prover` tree retains enough
history to answer inclusion-proof queries against any historical leaf count;
the ingested leaf sequence itself is such a structure. -/
structure Prover where
  leaves : List Nat
  deriving Repr, DecidableEq

/-- Modelled from the spec: the missing `Prover::count`. -/
def proverCount (p : Prover) : Nat :=
  p.leaves.length

/-- Modelled from the spec: the missing `Prover::root`, returning the current
(latest) root. -/
def proverRoot (hash : Nat → Nat → Nat) (depth : Nat) (p : Prover) : Nat :=
  merkleRootAux hash depth p.leaves

/-- Modelled from the spec: error taxonomy of the missing `ProverError` —
a tree-full condition and an invalid-proof-request condition. -/
inductive ProverError where
  | treeFull
  | invalidProofRequest
  deriving Repr, DecidableEq

/-- Modelled from the spec: the missing `Prover::ingest` appends the leaf,
failing with a tree-full condition once the capacity `2 ^ depth` is
exhausted (and leaving the tree unchanged in that case). -/
def proverIngest (depth : Nat) (p : Prover) (leaf : Nat) : Except ProverError Prover :=
  if p.leaves.length < 2 ^ depth then .ok ⟨p.leaves ++ [leaf]⟩ else .error .treeFull

/-- Modelled from the spec: the authentication path of the leaf at `idx` in
the depth-`d` tree over `ls`, ordered from the leaf level up to the level
just below the root; siblings beyond the frontier are empty-subtree roots. -/
def authPath (hash : Nat → Nat → Nat) : Nat → List Nat → Nat → List Nat
  | 0, _, _ => []
  | d + 1, ls, idx =>
      if idx < 2 ^ d then
        authPath hash d (ls.take (2 ^ d)) idx ++ [merkleRootAux hash d (ls.drop (2 ^ d))]
      else
        authPath hash d (ls.drop (2 ^ d)) (idx - 2 ^ d) ++ [merkleRootAux hash d (ls.take (2 ^ d))]

/-- Modelled from the spec: the `Proof` value — leaf digest, leaf index,
ordered sibling path, and the historical root digest. -/
structure Proof where
  leaf : Nat
  index : Nat
  path : List Nat
  root : Nat
  deriving Repr, DecidableEq

/-- Modelled from the spec: the missing `Prover::prove_against_previous` —
precondition `leafIndex ≤ rootIndex < count`, producing the authentication
path of `leafIndex` as the tree stood at `rootIndex + 1` leaves together
with that historical root; out-of-range requests fail with the
invalid-request condition and produce no partial proof. -/
def proveAgainstPrevious (hash : Nat → Nat → Nat) (depth : Nat) (p : Prover)
    (leafIndex rootIndex : Nat) : Except ProverError Proof :=
  if leafIndex > rootIndex ∨ rootIndex ≥ p.leaves.length then
    .error .invalidProofRequest
  else
    .ok { leaf := p.leaves.getD leafIndex 0
          index := leafIndex
          path := authPath hash depth (p.leaves.take (rootIndex + 1)) leafIndex
          root := merkleRootAux hash depth (p.leaves.take (rootIndex + 1)) }

/-- Bottom-up fold of a sibling path starting from a leaf digest, the
left/right ordering at each level taken from the bits of the leaf index. -/
def foldPath (hash : Nat → Nat → Nat) : List Nat → Nat → Nat → Nat
  | [], _, node => node
  | sib :: rest, idx, node =>
      foldPath hash rest (idx / 2) (if idx % 2 = 0 then hash node sib else hash sib node)

/-- Transcribed from `builder.rs`: `MerkleTreeBuilderError` (the two variants
generated by the builder itself; upstream pass-through variants carry no
behaviour of their own). -/
inductive MerkleTreeBuilderError where
  | mismatchedRoots (proverRoot incrementalRoot : String)
  | proverError (e : ProverError)
  deriving Repr, DecidableEq

/-- Transcribed from `builder.rs`: `MerkleTreeBuilder` owns one `Prover` and
one `IncrementalMerkle`. -/
structure MerkleTreeBuilder where
  prover : Prover
  incremental : IncrementalMerkle
  deriving Repr, DecidableEq

/-- Transcribed from `builder.rs`: `MerkleTreeBuilder::new` builds both trees
from their default (empty) states; the default incremental branch array holds
one zero digest per level. -/
def mtbNew (depth : Nat) : MerkleTreeBuilder :=
  { prover := ⟨[]⟩, incremental := ⟨List.replicate depth 0, 0⟩ }

/-- Transcribed from `builder.rs`: `MerkleTreeBuilder::count` returns
`self.prover.count() as u32` — the prover's count truncated to 32 bits. -/
def builderCount (b : MerkleTreeBuilder) : Nat :=
  proverCount b.prover % 2 ^ 32

/-- Transcribed from `builder.rs`: `MerkleTreeBuilder::get_proof` delegates
to `prove_against_previous`, wrapping its error into the builder taxonomy. -/
def getProof (hash : Nat → Nat → Nat) (depth : Nat) (b : MerkleTreeBuilder)
    (leafIndex rootIndex : Nat) : Except MerkleTreeBuilderError Proof :=
  (proveAgainstPrevious hash depth b.prover leafIndex rootIndex).mapError .proverError

/-- Transcribed from `builder.rs`: the `prover_latest_index` tracing-span
field of `get_proof` evaluates `self.count() - 1` on `u32`, i.e. with
wrap-around on underflow. -/
def proverLatestIndexField (b : MerkleTreeBuilder) : Nat :=
  (builderCount b + (2 ^ 32 - 1)) % 2 ^ 32

/-- Debug rendering of a digest, standing in for `format!("\x7b:?\x7d", root)`
on an `H256` (a hexadecimal rendering of the digest). -/
def fmtDigest (n : Nat) : String :=
  "0x" ++ (Nat.toDigits 16 n).asString

/-- Transcribed from `builder.rs`: `MerkleTreeBuilder::ingest_message_id` —
ingest into the prover first (mapping a failure to a wrapped `TreeFull`
without touching the incremental tree), then ingest into the incremental
tree, then compare the two roots: on mismatch return a `MismatchedRoots`
error carrying both rendered roots, otherwise return `Ok`.  The second
component of the result is the builder state after the call. -/
def ingestMessageId (hash : Nat → Nat → Nat) (depth : Nat) (b : MerkleTreeBuilder)
    (messageId : Nat) : Except MerkleTreeBuilderError Unit × MerkleTreeBuilder :=
  match proverIngest depth b.prover messageId with
  | .error _ => (.error (.proverError .treeFull), b)
  | .ok p =>
      let i := incrIngest hash b.incremental messageId
      let b := { prover := p, incremental := i : MerkleTreeBuilder }
      if proverRoot hash depth p = incrRoot hash depth i then (.ok (), b)
      else
        (.error (.mismatchedRoots (fmtDigest (proverRoot hash depth p))
          (fmtDigest (incrRoot hash depth i))), b)

/-- Transcribed from `builder.rs`: the `Display` implementation renders both
trees' root and count side by side (incremental first, then prover). -/
def mtbDisplay (hash : Nat → Nat → Nat) (depth : Nat) (b : MerkleTreeBuilder) : String :=
  "MerkleTreeBuilder \x7b " ++
    "incremental: \x7b root: " ++ fmtDigest (incrRoot hash depth b.incremental) ++
    ", size: " ++ toString (incrCount b.incremental) ++ " \x7d, " ++
    "prover: \x7b root: " ++ fmtDigest (proverRoot hash depth b.prover) ++
    ", size: " ++ toString (proverCount b.prover) ++ " \x7d " ++ "\x7d"

/-- The `count()` accessor as a state-passing call: it returns the computed
value together with the builder it leaves behind (`&self` in the source). -/
def countCall (b : MerkleTreeBuilder) : Nat × MerkleTreeBuilder :=
  (builderCount b, b)

/-- The prover `root()` accessor as a state-passing call. -/
def proverRootCall (hash : Nat → Nat → Nat) (depth : Nat) (b : MerkleTreeBuilder) :
    Nat × MerkleTreeBuilder :=
  (proverRoot hash depth b.prover, b)

/-- The incremental `root()` accessor as a state-passing call. -/
def incrRootCall (hash : Nat → Nat → Nat) (depth : Nat) (b : MerkleTreeBuilder) :
    Nat × MerkleTreeBuilder :=
  (incrRoot hash depth b.incremental, b)

/-- Iterated ingestion of a list of leaves, left to right (the builder state
advances on every call whether or not the call reported an error, exactly as
the `&mut self` method does). -/
def runIngest (hash : Nat → Nat → Nat) (depth : Nat) :
    MerkleTreeBuilder → List Nat → MerkleTreeBuilder
  | b, [] => b
  | b, x :: xs => runIngest hash depth (ingestMessageId hash depth b x).2 xs

end Hyperlane

namespace Hyperlane

/-- Transcribed from `chain.rs`: the `HyperlaneDomain` enum. -/
inductive HyperlaneDomain where
  | Ethereum
  | Goerli
  | Kovan
  | Polygon
  | Mumbai
  | Avalanche
  | Fuji
  | Arbitrum
  | ArbitrumRinkeby
  | ArbitrumGoerli
  | Optimism
  | OptimismKovan
  | OptimismGoerli
  | BinanceSmartChain
  | BinanceSmartChainTestnet
  | Celo
  | Alfajores
  | MoonbaseAlpha
  | Moonbeam
  | Zksync2Testnet
  | Test1
  | Test2
  | Test3
  deriving Repr, DecidableEq

/-- Transcribed from `chain.rs`: `impl From<HyperlaneDomain> for u32` — the
discriminant values of the enum. -/
def domainIdOf : HyperlaneDomain → Nat
  | .Ethereum => 0x657468
  | .Goerli => 5
  | .Kovan => 3000
  | .Polygon => 0x706f6c79
  | .Mumbai => 80001
  | .Avalanche => 0x61766178
  | .Fuji => 43113
  | .Arbitrum => 0x617262
  | .ArbitrumRinkeby => 0x61722d72
  | .ArbitrumGoerli => 421613
  | .Optimism => 0x6f70
  | .OptimismKovan => 0x6f702d6b
  | .OptimismGoerli => 420
  | .BinanceSmartChain => 0x627363
  | .BinanceSmartChainTestnet => 0x62732d74
  | .Celo => 0x63656c6f
  | .Alfajores => 1000
  | .MoonbaseAlpha => 0x6d6f2d61
  | .Moonbeam => 0x6d6f2d6d
  | .Zksync2Testnet => 280
  | .Test1 => 13371
  | .Test2 => 13372
  | .Test3 => 13373

/-- The table of all `HyperlaneDomain` variants, in declaration order. -/
def domainTable : List HyperlaneDomain :=
  [.Ethereum, .Goerli, .Kovan, .Polygon, .Mumbai, .Avalanche, .Fuji, .Arbitrum,
   .ArbitrumRinkeby, .ArbitrumGoerli, .Optimism, .OptimismKovan, .OptimismGoerli,
   .BinanceSmartChain, .BinanceSmartChainTestnet, .Celo, .Alfajores, .MoonbaseAlpha,
   .Moonbeam, .Zksync2Testnet, .Test1, .Test2, .Test3]

/-- Transcribed from `chain.rs`: `impl TryFrom<u32> for HyperlaneDomain` —
the derived `FromPrimitive` lookup is an exact match of the argument against
the discriminant of each variant, with `none` standing for the
"Unknown domain ID" error. -/
def hyperlaneDomainFromU32 (n : Nat) : Option HyperlaneDomain :=
  domainTable.find? (fun v => domainIdOf v == n)

/-- Transcribed from `chain.rs`: the strum `Display` rendering
(`serialize_all = "lowercase"`, with the two explicit `serialize`
overrides for the BSC variants). -/
def domainName : HyperlaneDomain → String
  | .Ethereum => "ethereum"
  | .Goerli => "goerli"
  | .Kovan => "kovan"
  | .Polygon => "polygon"
  | .Mumbai => "mumbai"
  | .Avalanche => "avalanche"
  | .Fuji => "fuji"
  | .Arbitrum => "arbitrum"
  | .ArbitrumRinkeby => "arbitrumrinkeby"
  | .ArbitrumGoerli => "arbitrumgoerli"
  | .Optimism => "optimism"
  | .OptimismKovan => "optimismkovan"
  | .OptimismGoerli => "optimismgoerli"
  | .BinanceSmartChain => "bsc"
  | .BinanceSmartChainTestnet => "bsctestnet"
  | .Celo => "celo"
  | .Alfajores => "alfajores"
  | .MoonbaseAlpha => "moonbasealpha"
  | .Moonbeam => "moonbeam"
  | .Zksync2Testnet => "zksync2testnet"
  | .Test1 => "test1"
  | .Test2 => "test2"
  | .Test3 => "test3"

/-- Transcribed from `chain.rs`: the strum `FromStr` lookup — an exact match
of the argument against each variant's serialized name, with `none` standing
for the unrecognized-name error. -/
def domainFromName (s : String) : Option HyperlaneDomain :=
  domainTable.find? (fun v => domainName v == s)

/-- Transcribed from `chain.rs`: `name_from_domain_id`. -/
def nameFromDomainId (n : Nat) : Option String :=
  (hyperlaneDomainFromU32 n).map domainName

/-- Transcribed from `chain.rs`: `domain_id_from_name`. -/
def domainIdFromName (s : String) : Option Nat :=
  (domainFromName s).map domainIdOf

end Hyperlane

namespace Hyperlane

theorem authPath_length (hash : Nat → Nat → Nat) :
    ∀ (d : Nat) (ls : List Nat) (idx : Nat), (authPath hash d ls idx).length = d := by
  intro d
  induction d with
  | zero => intro ls idx; rfl
  | succ d ih =>
      intro ls idx
      rw [authPath]
      split
      · simp [ih]
      · simp [ih]

theorem foldPath_append (hash : Nat → Nat → Nat) :
    ∀ (p q : List Nat) (idx node : Nat),
      foldPath hash (p ++ q) idx node
        = foldPath hash q (idx / 2 ^ p.length) (foldPath hash p idx node) := by
  intro p
  induction p with
  | nil => intro q idx node; simp [foldPath]
  | cons sib rest ih =>
      intro q idx node
      rw [List.cons_append, foldPath, foldPath, ih, List.length_cons,
        Nat.div_div_eq_div_mul, ← Nat.pow_succ']

theorem foldPath_mod (hash : Nat → Nat → Nat) :
    ∀ (p : List Nat) (idx node : Nat),
      foldPath hash p idx node = foldPath hash p (idx % 2 ^ p.length) node := by
  intro p
  induction p with
  | nil => intro idx node; rfl
  | cons sib rest ih =>
      intro idx node
      have h2 : (2 : Nat) ∣ 2 ^ (rest.length + 1) := dvd_pow_self 2 (Nat.succ_ne_zero _)
      rw [foldPath, foldPath, List.length_cons, Nat.mod_mod_of_dvd idx h2,
        Nat.pow_succ', Nat.mod_mul_right_div_self, ← ih]

theorem getD_take (ls : List Nat) (n idx : Nat) (h : idx < n) :
    (ls.take n).getD idx 0 = ls.getD idx 0 := by
  simp [List.getD_eq_getElem?_getD, List.getElem?_take, h]

theorem getD_drop (ls : List Nat) (n idx : Nat) :
    (ls.drop n).getD idx 0 = ls.getD (n + idx) 0 := by
  simp [List.getD_eq_getElem?_getD, List.getElem?_drop]

theorem headD_eq_getD (ls : List Nat) : ls.headD 0 = ls.getD 0 0 := by
  cases ls <;> rfl

theorem foldPath_authPath (hash : Nat → Nat → Nat) :
    ∀ (d : Nat) (ls : List Nat) (idx : Nat), idx < 2 ^ d →
      foldPath hash (authPath hash d ls idx) idx (ls.getD idx 0)
        = merkleRootAux hash d ls := by
  intro d
  induction d with
  | zero =>
      intro ls idx h
      have h0 : idx = 0 := Nat.lt_one_iff.mp h
      subst h0
      rw [authPath, foldPath, merkleRootAux, headD_eq_getD]
  | succ d ih =>
      intro ls idx h
      by_cases hc : idx < 2 ^ d
      · rw [merkleRootAux, authPath, if_pos hc, foldPath_append, authPath_length,
          Nat.div_eq_of_lt hc]
        rw [show ∀ s y, foldPath hash [s] 0 y = hash y s from fun s y => rfl]
        rw [← getD_take ls (2 ^ d) idx hc, ih _ idx hc]
      · have h2 : 2 ^ d ≤ idx := Nat.le_of_not_lt hc
        have hpow : 2 ^ (d + 1) = 2 ^ d + 2 ^ d := Nat.two_pow_succ d
        have h3 : idx - 2 ^ d < 2 ^ d := by omega
        have hdiv : idx / 2 ^ d = 1 :=
          Nat.div_eq_of_lt_le (by simpa using h2) (by omega)
        rw [merkleRootAux, authPath, if_neg hc, foldPath_append, authPath_length, hdiv]
        rw [show ∀ s y, foldPath hash [s] 1 y = hash s y from fun s y => rfl]
        rw [foldPath_mod, authPath_length, Nat.mod_eq_sub_mod h2, Nat.mod_eq_of_lt h3]
        rw [show ls.getD idx 0 = (ls.drop (2 ^ d)).getD (idx - 2 ^ d) 0 by
          rw [getD_drop]; congr 1; omega]
        rw [ih _ _ h3]

end Hyperlane

namespace Hyperlane

/-- A concrete digest oracle used by the closed witness statements. -/
def probeHash : Nat → Nat → Nat := fun a b => a + b + 1

/-- C1: for a builder whose prover holds at most `2 ^ depth` leaves, any
proof returned by `get_proof(leafIndex, rootIndex)` folds bottom-up — from
the leaf digest, with the left/right ordering given by the bits of
`leafIndex` — to exactly the root the tree had when its count was
`rootIndex + 1`, and that historical root is the one carried in the returned
proof. -/
theorem c1_proof_validity (hash : Nat → Nat → Nat) (depth : Nat) (b : MerkleTreeBuilder)
    (leafIndex rootIndex : Nat) (hcap : proverCount b.prover ≤ 2 ^ depth) (p : Proof)
    (hp : getProof hash depth b leafIndex rootIndex = .ok p) :
    foldPath hash p.path leafIndex p.leaf
      = merkleRootAux hash depth (b.prover.leaves.take (rootIndex + 1)) ∧
    p.root = merkleRootAux hash depth (b.prover.leaves.take (rootIndex + 1)) := by
  unfold getProof proveAgainstPrevious at hp
  by_cases hcond : leafIndex > rootIndex ∨ rootIndex ≥ b.prover.leaves.length
  · rw [if_pos hcond] at hp
    simp [Except.mapError] at hp
  · rw [if_neg hcond] at hp
    push_neg at hcond
    obtain ⟨hlr, hrc⟩ := hcond
    simp only [Except.mapError, Except.ok.injEq] at hp
    subst hp
    have hidx : leafIndex < 2 ^ depth := by
      unfold proverCount at hcap
      omega
    refine ⟨?_, rfl⟩
    rw [show (b.prover.leaves.getD leafIndex 0)
          = ((b.prover.leaves.take (rootIndex + 1)).getD leafIndex 0) from
        (getD_take b.prover.leaves (rootIndex + 1) leafIndex (by omega)).symm]
    exact foldPath_authPath hash depth _ leafIndex hidx

/-- Witness for C1: the three-leaf depth-2 tree, proof for leaf 0 against
the historical root at count 3. -/
theorem c1_proof_validity_witness :
    foldPath probeHash (Proof.mk 1 0 [2, 4] 9).path 0 (Proof.mk 1 0 [2, 4] 9).leaf
      = merkleRootAux probeHash 2
          ((⟨⟨[1, 2, 3]⟩, ⟨[0, 0], 0⟩⟩ : MerkleTreeBuilder).prover.leaves.take (2 + 1)) ∧
    (Proof.mk 1 0 [2, 4] 9).root
      = merkleRootAux probeHash 2
          ((⟨⟨[1, 2, 3]⟩, ⟨[0, 0], 0⟩⟩ : MerkleTreeBuilder).prover.leaves.take (2 + 1)) :=
  c1_proof_validity probeHash 2 ⟨⟨[1, 2, 3]⟩, ⟨[0, 0], 0⟩⟩ 0 2 (by decide)
    (Proof.mk 1 0 [2, 4] 9) (by rfl)

/-- C3: when the prover's ingest fails (the prover already holds `2 ^ depth`
leaves, i.e. the tree is full), `ingest_message_id` returns the wrapped
TreeFull error and the builder — the incremental accumulator included — is
left completely unchanged. -/
theorem c3_prover_first (hash : Nat → Nat → Nat) (depth : Nat) (b : MerkleTreeBuilder)
    (leaf : Nat) (h : 2 ^ depth ≤ proverCount b.prover) :
    ingestMessageId hash depth b leaf = (.error (.proverError .treeFull), b) := by
  rw [ingestMessageId, proverIngest, if_neg (by unfold proverCount at h; omega)]

/-- Witness for C3: a depth-0 builder whose single-leaf prover is full. -/
theorem c3_prover_first_witness :
    ingestMessageId probeHash 0 ⟨⟨[5]⟩, ⟨[], 1⟩⟩ 7
      = (.error (.proverError .treeFull), ⟨⟨[5]⟩, ⟨[], 1⟩⟩) :=
  c3_prover_first probeHash 0 ⟨⟨[5]⟩, ⟨[], 1⟩⟩ 7 (by decide)

/-- C7: `count()` and `root()` are pure reads: the state-passing calls
return the builder unchanged, and repeated calls without intervening
ingestion return identical values (in particular the Display rendering,
which performs all four reads, is unaffected by them). -/
theorem c7_pure_reads (hash : Nat → Nat → Nat) (depth : Nat) (b : MerkleTreeBuilder) :
    (countCall b).2 = b ∧
    (proverRootCall hash depth b).2 = b ∧
    (incrRootCall hash depth b).2 = b ∧
    (countCall (countCall b).2).1 = (countCall b).1 ∧
    (proverRootCall hash depth (proverRootCall hash depth b).2).1
      = (proverRootCall hash depth b).1 ∧
    (incrRootCall hash depth (incrRootCall hash depth b).2).1
      = (incrRootCall hash depth b).1 ∧
    mtbDisplay hash depth (countCall b).2 = mtbDisplay hash depth b :=
  ⟨rfl, rfl, rfl, rfl, rfl, rfl, rfl⟩

/-- C8: the Display rendering exposes both trees' (root, count) pairs side
by side — the incremental root and count followed by the prover root and
count all occur, in this order, in the rendered string. -/
theorem c8_display_both_trees (hash : Nat → Nat → Nat) (depth : Nat) (b : MerkleTreeBuilder) :
    ∃ s1 s2 s3 s4 s5 : String,
      mtbDisplay hash depth b
        = s1 ++ fmtDigest (incrRoot hash depth b.incremental)
          ++ s2 ++ toString (incrCount b.incremental)
          ++ s3 ++ fmtDigest (proverRoot hash depth b.prover)
          ++ s4 ++ toString (proverCount b.prover) ++ s5 := by
  refine ⟨"MerkleTreeBuilder \x7b " ++ "incremental: \x7b root: ", ", size: ",
    " \x7d, " ++ "prover: \x7b root: ", ", size: ", " \x7d " ++ "\x7d", ?_⟩
  rw [mtbDisplay]
  simp [String.append_assoc]

/-- C9: evaluating the `prover_latest_index = self.count() - 1` tracing-span
field on a freshly constructed builder underflows: `count()` is 0, so the
`u32` subtraction has no mathematically meaningful value and wraps to
`2 ^ 32 - 1` (it panics outright under checked arithmetic). -/
theorem c9_span_field_underflow :
    builderCount (mtbNew 32) = 0 ∧
    ¬ 1 ≤ builderCount (mtbNew 32) ∧
    proverLatestIndexField (mtbNew 32) = 2 ^ 32 - 1 := by
  refine ⟨rfl, ?_, ?_⟩ <;> decide

theorem domainFromName_domainName (v : HyperlaneDomain) :
    domainFromName (domainName v) = some v := by
  cases v <;> rfl

theorem domainIdOf_fromU32 (v : HyperlaneDomain) :
    hyperlaneDomainFromU32 (domainIdOf v) = some v := by
  cases v <;> rfl

theorem fromU32_sound (n : Nat) (v : HyperlaneDomain)
    (h : hyperlaneDomainFromU32 n = some v) : domainIdOf v = n := by
  have hp := List.find?_some h
  simpa using hp

theorem fromName_sound (s : String) (v : HyperlaneDomain)
    (h : domainFromName s = some v) : domainName v = s := by
  have hp := List.find?_some h
  simpa using hp

theorem fromU32_unknown (n : Nat) (hd : ∀ v : HyperlaneDomain, domainIdOf v ≠ n) :
    hyperlaneDomainFromU32 n = none := by
  rw [hyperlaneDomainFromU32, List.find?_eq_none]
  intro v hv
  simpa using hd v

theorem fromName_unknown (s : String) (hs : ∀ v : HyperlaneDomain, domainName v ≠ s) :
    domainFromName s = none := by
  rw [domainFromName, List.find?_eq_none]
  intro v hv
  simpa using hs v

/-- C10: the registry lookups are mutually inverse on their defined domains:
a defined `name_from_domain_id` result round-trips through
`domain_id_from_name`; every enum variant round-trips through its u32 id;
unrecognized ids and names yield `none`. -/
theorem c10_registry_roundtrip :
    (∀ (d : Nat) (name : String), nameFromDomainId d = some name →
        domainIdFromName name = some d) ∧
    (∀ v : HyperlaneDomain, hyperlaneDomainFromU32 (domainIdOf v) = some v) ∧
    (∀ d : Nat, (∀ v : HyperlaneDomain, domainIdOf v ≠ d) → nameFromDomainId d = none) ∧
    (∀ s : String, (∀ v : HyperlaneDomain, domainName v ≠ s) → domainIdFromName s = none) := by
  refine ⟨?_, domainIdOf_fromU32, ?_, ?_⟩
  · intro d name h
    rw [nameFromDomainId] at h
    cases hv : hyperlaneDomainFromU32 d with
    | none => rw [hv] at h; simp at h
    | some v =>
        rw [hv] at h
        simp only [Option.map_some', Option.some.injEq] at h
        rw [domainIdFromName, ← h, domainFromName_domainName]
        simp [fromU32_sound d v hv]
  · intro d hd
    rw [nameFromDomainId, fromU32_unknown d hd, Option.map_none']
  · intro s hs
    rw [domainIdFromName, fromName_unknown s hs, Option.map_none']

/-- Witness for C10: the ethereum id round-trips, and an unknown id maps to
none. -/
theorem c10_registry_roundtrip_witness :
    domainIdFromName "ethereum" = some 6648936 ∧ nameFromDomainId 3841 = none :=
  ⟨c10_registry_roundtrip.1 6648936 "ethereum" rfl,
   c10_registry_roundtrip.2.2.1 3841 (by intro v; cases v <;> decide)⟩

end Hyperlane

namespace Hyperlane

theorem ingest_ok_roots (hash : Nat → Nat → Nat) (depth : Nat) (b : MerkleTreeBuilder) (x : Nat)
    (h : (ingestMessageId hash depth b x).1 = .ok ()) :
    proverRoot hash depth ((ingestMessageId hash depth b x).2).prover
      = incrRoot hash depth ((ingestMessageId hash depth b x).2).incremental := by
  cases hpi : proverIngest depth b.prover x with
  | error e => simp [ingestMessageId, hpi] at h
  | ok p =>
      by_cases hr : proverRoot hash depth p = incrRoot hash depth (incrIngest hash b.incremental x)
      · simp [ingestMessageId, hpi, hr]
      · simp [ingestMessageId, hpi, hr] at h

theorem ingest_counts (hash : Nat → Nat → Nat) (depth : Nat) (b : MerkleTreeBuilder) (x : Nat)
    (h : proverCount b.prover < 2 ^ depth) :
    proverCount ((ingestMessageId hash depth b x).2).prover = proverCount b.prover + 1 ∧
    incrCount ((ingestMessageId hash depth b x).2).incremental = incrCount b.incremental + 1 := by
  have hpi : proverIngest depth b.prover x = .ok ⟨b.prover.leaves ++ [x]⟩ := by
    rw [proverIngest, if_pos]
    exact h
  simp only [ingestMessageId, hpi]
  split <;> simp [proverCount, incrCount, incrIngest]

theorem runIngest_append (hash : Nat → Nat → Nat) (depth : Nat) :
    ∀ (xs : List Nat) (b : MerkleTreeBuilder) (x : Nat),
      runIngest hash depth b (xs ++ [x])
        = (ingestMessageId hash depth (runIngest hash depth b xs) x).2 := by
  intro xs
  induction xs with
  | nil => intro b x; rfl
  | cons y ys ih => intro b x; rw [List.cons_append, runIngest, runIngest, ih]

theorem runIngest_counts (hash : Nat → Nat → Nat) (depth : Nat) :
    ∀ (xs : List Nat) (b : MerkleTreeBuilder),
      proverCount b.prover + xs.length ≤ 2 ^ depth →
      proverCount (runIngest hash depth b xs).prover = proverCount b.prover + xs.length ∧
      incrCount (runIngest hash depth b xs).incremental
        = incrCount b.incremental + xs.length := by
  intro xs
  induction xs with
  | nil => intro b _; simp [runIngest]
  | cons y ys ih =>
      intro b h
      have h1 : proverCount b.prover < 2 ^ depth := by
        simp only [List.length_cons] at h
        omega
      obtain ⟨hp, hi⟩ := ingest_counts hash depth b y h1
      have h2 : proverCount ((ingestMessageId hash depth b y).2).prover + ys.length
          ≤ 2 ^ depth := by
        rw [hp]
        simp only [List.length_cons] at h
        omega
      obtain ⟨hp2, hi2⟩ := ih ((ingestMessageId hash depth b y).2) h2
      rw [runIngest]
      refine ⟨?_, ?_⟩
      · rw [hp2, hp, List.length_cons]
        omega
      · rw [hi2, hi, List.length_cons]
        omega

theorem take_eq_take_append (ls : List Nat) (k : Nat) (h1 : 1 ≤ k) (h2 : k ≤ ls.length) :
    ls.take k = ls.take (k - 1) ++ [ls.getD (k - 1) 0] := by
  obtain ⟨m, rfl⟩ : ∃ m, k = m + 1 := ⟨k - 1, by omega⟩
  simp only [Nat.add_sub_cancel]
  rw [List.take_succ]
  congr 1
  have hm : m < ls.length := by omega
  rw [List.getElem?_eq_getElem hm]
  simp [List.getD_eq_getElem?_getD, List.getElem?_eq_getElem hm]

/-- C2: starting from a freshly constructed builder and ingesting a valid
leaf sequence of length at most `2 ^ depth` strictly in order, after the
k-th call the prover count and the incremental count both equal k — the
number of leaves ingested so far — and whenever that k-th call returned Ok
the prover root and the incremental root of the resulting state agree. -/
theorem c2_lockstep_invariant (hash : Nat → Nat → Nat) (depth : Nat) (ls : List Nat)
    (hlen : ls.length ≤ 2 ^ depth) (k : Nat) (hk1 : 1 ≤ k) (hk : k ≤ ls.length) :
    proverCount (runIngest hash depth (mtbNew depth) (ls.take k)).prover = k ∧
    incrCount (runIngest hash depth (mtbNew depth) (ls.take k)).incremental = k ∧
    ((ingestMessageId hash depth (runIngest hash depth (mtbNew depth) (ls.take (k - 1)))
        (ls.getD (k - 1) 0)).1 = .ok () →
      proverRoot hash depth (runIngest hash depth (mtbNew depth) (ls.take k)).prover
        = incrRoot hash depth (runIngest hash depth (mtbNew depth) (ls.take k)).incremental) := by
  have htake : (ls.take k).length = k := by
    rw [List.length_take]
    omega
  obtain ⟨hp, hi⟩ := runIngest_counts hash depth (ls.take k) (mtbNew depth)
    (by rw [htake]; simpa [mtbNew, proverCount] using hk.trans hlen)
  refine ⟨?_, ?_, ?_⟩
  · rw [hp, htake]
    simp [mtbNew, proverCount]
  · rw [hi, htake]
    simp [mtbNew, incrCount]
  · intro hok
    rw [take_eq_take_append ls k hk1 hk, runIngest_append]
    exact ingest_ok_roots hash depth _ _ hok

/-- Witness for C2 at a singleton leaf sequence and depth 1. -/
theorem c2_lockstep_invariant_witness :
    proverCount (runIngest probeHash 1 (mtbNew 1) (([1] : List Nat).take 1)).prover = 1 ∧
    incrCount (runIngest probeHash 1 (mtbNew 1) (([1] : List Nat).take 1)).incremental = 1 ∧
    ((ingestMessageId probeHash 1
        (runIngest probeHash 1 (mtbNew 1) (([1] : List Nat).take (1 - 1)))
        (([1] : List Nat).getD (1 - 1) 0)).1 = .ok () →
      proverRoot probeHash 1 (runIngest probeHash 1 (mtbNew 1) (([1] : List Nat).take 1)).prover
        = incrRoot probeHash 1
            (runIngest probeHash 1 (mtbNew 1) (([1] : List Nat).take 1)).incremental) :=
  c2_lockstep_invariant probeHash 1 [1] (by norm_num) 1 (by norm_num) (by norm_num)

/-- C4: when the prover accepts the leaf, `ingest_message_id` ingests into
both trees; if the two roots then differ it returns — instead of Ok — the
MismatchedRoots error carrying both rendered root values, and if they agree
it returns Ok (the mutated two-tree state being the same either way). -/
theorem c4_mismatch_check (hash : Nat → Nat → Nat) (depth : Nat) (b : MerkleTreeBuilder)
    (x : Nat) (p : Prover) (hpi : proverIngest depth b.prover x = .ok p) :
    (proverRoot hash depth p ≠ incrRoot hash depth (incrIngest hash b.incremental x) →
      ingestMessageId hash depth b x
        = (.error (.mismatchedRoots (fmtDigest (proverRoot hash depth p))
            (fmtDigest (incrRoot hash depth (incrIngest hash b.incremental x)))),
           ⟨p, incrIngest hash b.incremental x⟩)) ∧
    (proverRoot hash depth p = incrRoot hash depth (incrIngest hash b.incremental x) →
      ingestMessageId hash depth b x = (.ok (), ⟨p, incrIngest hash b.incremental x⟩)) := by
  constructor <;> intro hr <;> simp [ingestMessageId, hpi, hr]

/-- Witness for C4: a builder with a corrupted incremental branch detects
the divergence on the next ingestion and reports both roots. -/
theorem c4_mismatch_check_witness :
    ingestMessageId probeHash 2 ⟨⟨[7]⟩, ⟨[9, 0], 1⟩⟩ 3
      = (.error (.mismatchedRoots (fmtDigest (proverRoot probeHash 2 ⟨[7, 3]⟩))
          (fmtDigest (incrRoot probeHash 2 (incrIngest probeHash ⟨[9, 0], 1⟩ 3)))),
         ⟨⟨[7, 3]⟩, incrIngest probeHash ⟨[9, 0], 1⟩ 3⟩) :=
  (c4_mismatch_check probeHash 2 ⟨⟨[7]⟩, ⟨[9, 0], 1⟩⟩ 3 ⟨[7, 3]⟩ (by rfl)).1
    (by
      simp [proverRoot, merkleRootAux, incrRoot, incrIngest, ingestGo, rootGo, zeroHash,
        probeHash]
      decide)

end Hyperlane

namespace Hyperlane

/-- C5 (amended): for every builder state, a request with
`leafIndex > rootIndex` or `rootIndex ≥` the prover's leaf count fails with
the invalid-proof-request error — a caller error wrapped into the builder
taxonomy — and returns no partial proof; the u32 `count()` agrees with the
prover's count whenever the prover holds fewer than `2 ^ 32` leaves. -/
theorem c5_invalid_request (hash : Nat → Nat → Nat) (depth : Nat) (b : MerkleTreeBuilder)
    (leafIndex rootIndex : Nat)
    (h : leafIndex > rootIndex ∨ rootIndex ≥ proverCount b.prover) :
    getProof hash depth b leafIndex rootIndex
      = .error (.proverError .invalidProofRequest) ∧
    (proverCount b.prover < 2 ^ 32 → builderCount b = proverCount b.prover) := by
  constructor
  · rw [getProof, proveAgainstPrevious, if_pos (show leafIndex > rootIndex ∨
      rootIndex ≥ b.prover.leaves.length from h)]
    rfl
  · intro hlt
    rw [builderCount, Nat.mod_eq_of_lt hlt]

/-- Witness for C5: a two-leaf builder rejects the request (1, 0). -/
theorem c5_invalid_request_witness :
    getProof probeHash 1 ⟨⟨[1, 2]⟩, ⟨[0], 0⟩⟩ 1 0
      = .error (.proverError .invalidProofRequest) ∧
    (proverCount (⟨⟨[1, 2]⟩, ⟨[0], 0⟩⟩ : MerkleTreeBuilder).prover < 2 ^ 32 →
      builderCount ⟨⟨[1, 2]⟩, ⟨[0], 0⟩⟩
        = proverCount (⟨⟨[1, 2]⟩, ⟨[0], 0⟩⟩ : MerkleTreeBuilder).prover) :=
  c5_invalid_request probeHash 1 ⟨⟨[1, 2]⟩, ⟨[0], 0⟩⟩ 1 0 (Or.inl (by norm_num))

/-- A builder whose prover holds exactly `2 ^ 32` leaves — the full capacity
of the depth-32 tree; the u32 `count()` has wrapped to 0. -/
def fullBuilder : MerkleTreeBuilder :=
  ⟨⟨List.replicate (2 ^ 32) 0⟩, ⟨List.replicate 32 0, 2 ^ 32⟩⟩

/-- C5 counterexample: on `fullBuilder` the request (0, 0) satisfies
`rootIndex ≥ count()` — `count()` reads 0 after the u32 cast — yet
`get_proof` does not fail with the invalid-proof-request error, because the
prover still holds all `2 ^ 32` leaves and serves the request. -/
theorem c5_counterexample :
    builderCount fullBuilder = 0 ∧
    0 ≥ builderCount fullBuilder ∧
    getProof probeHash 32 fullBuilder 0 0 ≠ .error (.proverError .invalidProofRequest) := by
  have hlen : fullBuilder.prover.leaves.length = 2 ^ 32 := by
    show (List.replicate (2 ^ 32) (0 : Nat)).length = 2 ^ 32
    rw [List.length_replicate]
  have hc : builderCount fullBuilder = 0 := by
    rw [builderCount, proverCount, hlen, Nat.mod_self]
  refine ⟨hc, by omega, ?_⟩
  rw [getProof, proveAgainstPrevious,
    if_neg (show ¬(0 > 0 ∨ 0 ≥ fullBuilder.prover.leaves.length) by
      rw [hlen]
      norm_num)]
  intro hcon
  exact Except.noConfusion hcon

/-- The concrete digest oracle of the C6 run: plain addition, under which
every empty-subtree digest is 0 and all-zero trees have root 0. -/
def addHash : Nat → Nat → Nat := fun a b => a + b

theorem zeroHash_addHash (i : Nat) : zeroHash addHash i = 0 := by
  induction i with
  | zero => rfl
  | succ i ih => simp [zeroHash, addHash, ih]

theorem merkleRootAux_zeros (hash : Nat → Nat → Nat) :
    ∀ (d : Nat) (ls : List Nat), (∀ x ∈ ls, x = 0) →
      merkleRootAux hash d ls = zeroHash hash d := by
  intro d
  induction d with
  | zero =>
      intro ls h
      cases ls with
      | nil => rfl
      | cons x xs => simpa [merkleRootAux, zeroHash] using h x (List.mem_cons_self x xs)
  | succ d ih =>
      intro ls h
      rw [merkleRootAux, zeroHash,
        ih _ (fun x hx => h x (List.mem_of_mem_take hx)),
        ih _ (fun x hx => h x (List.mem_of_mem_drop hx))]

theorem getD_replicate_zero (n i : Nat) : (List.replicate n (0 : Nat)).getD i 0 = 0 := by
  rw [List.getD_eq_getElem?_getD, List.getElem?_replicate]
  split <;> rfl

theorem set_replicate_zero : ∀ (n i : Nat), (List.replicate n (0 : Nat)).set i 0
    = List.replicate n 0 := by
  intro n
  induction n with
  | zero => intro i; rfl
  | succ n ih =>
      intro i
      cases i with
      | zero => simp [List.replicate_succ]
      | succ i => simp [List.replicate_succ, ih]

theorem ingestGo_zeros : ∀ (s i : Nat),
    ingestGo addHash (List.replicate 32 0) 0 i s = List.replicate 32 0 := by
  intro s
  induction s using Nat.strong_induction_on with
  | _ s ih =>
      intro i
      rw [ingestGo]
      split
      · exact set_replicate_zero 32 i
      · rename_i hodd
        have h0 : addHash ((List.replicate 32 0).getD i 0) 0 = 0 := by
          rw [getD_replicate_zero]
          rfl
        rw [h0]
        exact ih (s / 2) (by omega) (i + 1)

theorem rootGo_zeros : ∀ (levels i s : Nat),
    rootGo addHash levels (List.replicate 32 0) i 0 s = 0 := by
  intro levels
  induction levels with
  | zero => intro i s; rfl
  | succ l ih =>
      intro i s
      rw [rootGo]
      have hnode : (if s % 2 = 1 then addHash ((List.replicate 32 0).getD i 0) 0
          else addHash 0 (zeroHash addHash i)) = 0 := by
        split
        · rw [getD_replicate_zero]
          rfl
        · rw [zeroHash_addHash]
          rfl
      rw [hnode]
      exact ih (i + 1) (s / 2)

theorem c6_step (c : Nat) (hc : c < 2 ^ 32) :
    ingestMessageId addHash 32 ⟨⟨List.replicate c 0⟩, ⟨List.replicate 32 0, c⟩⟩ 0
      = (.ok (), ⟨⟨List.replicate (c + 1) 0⟩, ⟨List.replicate 32 0, c + 1⟩⟩) := by
  have hpi : proverIngest 32 ⟨List.replicate c 0⟩ 0 = .ok ⟨List.replicate (c + 1) 0⟩ := by
    rw [proverIngest, if_pos (by simpa using hc), ← List.replicate_succ']
  have hincr : incrIngest addHash ⟨List.replicate 32 0, c⟩ 0
      = ⟨List.replicate 32 0, c + 1⟩ := by
    rw [incrIngest]
    simp only [ingestGo_zeros]
  have hroots : proverRoot addHash 32 ⟨List.replicate (c + 1) 0⟩
      = incrRoot addHash 32 ⟨List.replicate 32 0, c + 1⟩ := by
    rw [proverRoot,
      merkleRootAux_zeros addHash 32 _ (fun x hx => List.eq_of_mem_replicate hx),
      incrRoot, rootGo_zeros, zeroHash_addHash]
  simp only [ingestMessageId, hpi, hincr, hroots, if_true]

/-- The lifetime of the C6 counterexample: a fresh depth-32 builder into
which the zero leaf is ingested k times. -/
def runZeros (k : Nat) : MerkleTreeBuilder :=
  runIngest addHash 32 (mtbNew 32) (List.replicate k 0)

theorem runZeros_eq : ∀ (k : Nat), k ≤ 2 ^ 32 →
    runZeros k = ⟨⟨List.replicate k 0⟩, ⟨List.replicate 32 0, k⟩⟩ := by
  intro k
  induction k with
  | zero => intro _; rfl
  | succ k ih =>
      intro hk
      rw [runZeros, List.replicate_succ', runIngest_append, ← runZeros, ih (by omega),
        c6_step k (by omega), List.replicate_succ']

theorem proverCount_replicate (n : Nat) :
    proverCount (⟨List.replicate n 0⟩ : Prover) = n := by
  rw [proverCount]
  show (List.replicate n (0 : Nat)).length = n
  rw [List.length_replicate]

theorem builderCount_replicate (n : Nat) (br : List Nat) (c : Nat) :
    builderCount ⟨⟨List.replicate n 0⟩, ⟨br, c⟩⟩ = n % 2 ^ 32 := by
  rw [builderCount, proverCount_replicate]

/-- C6 counterexample: ingest the zero leaf `2 ^ 32` times into a fresh
builder under the concrete oracle `addHash`.  The last call — like every
call of this lifetime — returns Ok (both roots are genuinely equal at every
step, all subtrees being all-zero), yet `count()` drops from `2 ^ 32 - 1`
to 0 across that successful call, and afterwards no longer equals the
prover's leaf count of `2 ^ 32`. -/
theorem c6_counterexample :
    builderCount (runZeros (2 ^ 32 - 1)) = 2 ^ 32 - 1 ∧
    (ingestMessageId addHash 32 (runZeros (2 ^ 32 - 1)) 0).1 = .ok () ∧
    builderCount ((ingestMessageId addHash 32 (runZeros (2 ^ 32 - 1)) 0).2) = 0 ∧
    proverCount ((ingestMessageId addHash 32 (runZeros (2 ^ 32 - 1)) 0).2).prover
      = 2 ^ 32 := by
  rw [runZeros_eq (2 ^ 32 - 1) (by omega), c6_step (2 ^ 32 - 1) (by norm_num)]
  refine ⟨?_, rfl, ?_, ?_⟩
  · rw [builderCount_replicate, Nat.mod_eq_of_lt (by norm_num)]
  · show builderCount ⟨⟨List.replicate (2 ^ 32 - 1 + 1) 0⟩,
      ⟨List.replicate 32 0, 2 ^ 32 - 1 + 1⟩⟩ = 0
    rw [builderCount_replicate]
    norm_num
  · show proverCount (⟨List.replicate (2 ^ 32 - 1 + 1) 0⟩ : Prover) = 2 ^ 32
    rw [proverCount_replicate]
    norm_num

/-- C6 (amended): `count()` returns the prover's leaf count reduced modulo
`2 ^ 32` (the u32 cast); a freshly constructed builder has `count() = 0`;
every successful ingest increments the prover's count by exactly 1, and
`count()` itself increases by exactly 1 as long as the new prover count
stays below `2 ^ 32` — at exactly `2 ^ 32` leaves `count()` wraps to 0. -/
theorem c6_count_behaviour (hash : Nat → Nat → Nat) (depth : Nat) (b : MerkleTreeBuilder)
    (x : Nat) (hok : (ingestMessageId hash depth b x).1 = .ok ()) :
    builderCount (mtbNew depth) = 0 ∧
    builderCount b = proverCount b.prover % 2 ^ 32 ∧
    proverCount ((ingestMessageId hash depth b x).2).prover = proverCount b.prover + 1 ∧
    (proverCount b.prover + 1 < 2 ^ 32 →
      builderCount ((ingestMessageId hash depth b x).2) = builderCount b + 1) := by
  have hlen : proverCount b.prover < 2 ^ depth := by
    by_contra hge
    rw [ingestMessageId, proverIngest, if_neg (by unfold proverCount at hge; omega)] at hok
    simp at hok
  have hp := (ingest_counts hash depth b x hlen).1
  refine ⟨by simp [builderCount, mtbNew, proverCount], rfl, hp, ?_⟩
  intro hlt
  rw [builderCount, builderCount, hp, Nat.mod_eq_of_lt hlt, Nat.mod_eq_of_lt (by omega)]

/-- Witness for C6 (amended) at a depth-1 builder taking its first leaf. -/
theorem c6_count_behaviour_witness :
    builderCount (mtbNew 1) = 0 ∧
    builderCount (mtbNew 1) = proverCount (mtbNew 1).prover % 2 ^ 32 ∧
    proverCount ((ingestMessageId probeHash 1 (mtbNew 1) 1).2).prover
      = proverCount (mtbNew 1).prover + 1 ∧
    (proverCount (mtbNew 1).prover + 1 < 2 ^ 32 →
      builderCount ((ingestMessageId probeHash 1 (mtbNew 1) 1).2)
        = builderCount (mtbNew 1) + 1) :=
  c6_count_behaviour probeHash 1 (mtbNew 1) 1
    (by
      have hgo : ingestGo probeHash (List.replicate 1 0) 1 0 0 = [1] := by
        rw [ingestGo]
        rfl
      have hpi : proverIngest 1 (mtbNew 1).prover 1 = .ok ⟨[1]⟩ := rfl
      have hincr : incrIngest probeHash (mtbNew 1).incremental 1 = ⟨[1], 1⟩ := by
        rw [show (mtbNew 1).incremental = (⟨List.replicate 1 0, 0⟩ : IncrementalMerkle)
          from rfl, incrIngest, hgo]
      have hroots : proverRoot probeHash 1 (⟨[1]⟩ : Prover)
          = incrRoot probeHash 1 (⟨[1], 1⟩ : IncrementalMerkle) := rfl
      simp only [ingestMessageId, hpi, hincr, hroots, if_true])

end Hyperlane
